import Mathlib

/-!
Shallow embedding of the floor-seek controller in
`src/lift_control/lift_control.ino`.

The sketch drives a two-pin DC-motor H-bridge (outputs `D1`, `D2`) from an
ultrasonic distance sensor.  Three HTTP route handlers — `Forward` (Ground
floor), `Backward` (First floor) and `Left` (Second floor) — each run a
busy loop: sample the sensor, compare against a per-floor tolerance band,
write both motor pins, and `break` out of the loop on arrival.  A fourth
route, `/Stop`, unconditionally drives both pins low.

Distances are modelled as rationals (the sketch uses `float`; every
constant and comparison in it is exact in ℚ).  The pin pair is a record of
two booleans (`true` = HIGH).  `pulseIn` is hardware input, so the loop is
modelled as a function of the sample sequence it observes.
-/

namespace LiftControl

/-- A motor-direction output pin of the H-bridge (`D1`, `D2` in the sketch). -/
inductive Pin : Type
  | D1
  | D2
deriving DecidableEq, Repr

/-- The levels of the two motor-direction outputs; `true` models HIGH. -/
structure Pins : Type where
  d1 : Bool
  d2 : Bool
deriving DecidableEq, Repr

/-- `digitalWrite(pin, v)` as a state update on the two motor pins. -/
def digitalWrite (p : Pins) (pin : Pin) (v : Bool) : Pins :=
  match pin with
  | Pin.D1 => { p with d1 := v }
  | Pin.D2 => { p with d2 := v }

/-- Both outputs LOW: the idle / stopped motor command. -/
def Pins.stopped : Pins := ⟨false, false⟩

/-- A pin pair is mutually exclusive when at most one output is HIGH. -/
def mutuallyExclusive (p : Pins) : Prop := p.d1 = false ∨ p.d2 = false

/-- `#define SOUND_VELOCITY 0.034` (line 13 of the sketch). -/
def SOUND_VELOCITY : ℚ := 0.034

/-- `distance()` (lines 64–77): given the echo pulse duration returned by
`pulseIn`, computes `distanceCm = duration * SOUND_VELOCITY/2 - 2.5` and
returns it.  The pulse measurement itself is hardware input, modelled as
the argument. -/
def distance (duration : ℚ) : ℚ :=
  duration * SOUND_VELOCITY / 2 - 2.5

/-- One iteration of the `while (true)` body of `Forward` (Ground floor,
lines 81–100): given the previous pin state and the sample `distance1`,
returns the pin state after the branch's `digitalWrite`s and whether the
branch executed `break`. -/
def forwardBody (prev : Pins) (distance1 : ℚ) : Pins × Bool :=
  if 98.5 ≤ distance1 ∧ distance1 ≤ 99.5 then
    (digitalWrite (digitalWrite prev Pin.D2 false) Pin.D1 false, true)
  else if distance1 < 98.5 ∧ 0 < distance1 then
    (digitalWrite (digitalWrite prev Pin.D1 false) Pin.D2 true, false)
  else
    (digitalWrite (digitalWrite prev Pin.D2 false) Pin.D1 false, false)

/-- One iteration of the loop body of `Backward` (First floor, lines
105–135). -/
def backwardBody (prev : Pins) (distance1 : ℚ) : Pins × Bool :=
  if 71 ≤ distance1 ∧ distance1 ≤ 71.5 then
    (digitalWrite (digitalWrite prev Pin.D2 false) Pin.D1 false, true)
  else if distance1 < 71 ∧ 0 < distance1 then
    (digitalWrite (digitalWrite prev Pin.D1 false) Pin.D2 true, false)
  else if 71.5 < distance1 then
    (digitalWrite (digitalWrite prev Pin.D1 true) Pin.D2 false, false)
  else
    (digitalWrite (digitalWrite prev Pin.D2 false) Pin.D1 false, false)

/-- One iteration of the loop body of `Left` (Second floor, lines 137–166).
Note the final `else` branch of `Left` ends in `break`, unlike the other
two handlers. -/
def leftBody (prev : Pins) (distance1 : ℚ) : Pins × Bool :=
  if 38 ≤ distance1 ∧ distance1 ≤ 39 then
    (digitalWrite (digitalWrite prev Pin.D2 false) Pin.D1 false, true)
  else if 0 < distance1 ∧ distance1 < 38 then
    (digitalWrite (digitalWrite prev Pin.D2 true) Pin.D1 false, false)
  else if 39 < distance1 then
    (digitalWrite (digitalWrite prev Pin.D1 true) Pin.D2 false, false)
  else
    (digitalWrite (digitalWrite prev Pin.D2 false) Pin.D1 false, true)

/-- The three target floors, named by the buttons the routes serve:
`/Forward` → Ground, `/Backward` → First, `/Left` → Second. -/
inductive Floor : Type
  | Ground
  | First
  | Second
deriving DecidableEq, Repr

/-- The loop body of the route handler seeking each floor. -/
def handlerBody : Floor → Pins → ℚ → Pins × Bool
  | Floor.Ground => forwardBody
  | Floor.First => backwardBody
  | Floor.Second => leftBody

/-- Lower end of each floor's tolerance band, as written in the handlers'
first conditions. -/
def lowerOf : Floor → ℚ
  | Floor.Ground => 98.5
  | Floor.First => 71
  | Floor.Second => 38

/-- Upper end of each floor's tolerance band. -/
def upperOf : Floor → ℚ
  | Floor.Ground => 99.5
  | Floor.First => 71.5
  | Floor.Second => 39

/-- Whether the handler has a branch for samples beyond the band's upper
end (`Backward` and `Left` do; `Forward` does not). -/
def enforcesUpper : Floor → Bool
  | Floor.Ground => false
  | Floor.First => true
  | Floor.Second => true

/-- The `while (true)` seek loop, run over a finite prefix of the sample
sequence: `some p` when some iteration executes `break` (final pin state
`p`), `none` when the prefix is exhausted with the loop still running. -/
def seekLoop (f : Floor) : List ℚ → Pins → Option Pins
  | [], _ => none
  | d :: rest, prev =>
    if (handlerBody f prev d).2 then some (handlerBody f prev d).1
    else seekLoop f rest (handlerBody f prev d).1

/-- The fixed status message each handler writes into `page2` after its
loop exits. -/
def msgOf : Floor → String
  | Floor.Ground => "<center><p> Lift Status : Lift has reached the Ground Floor </p></center>"
  | Floor.First => "<center><p> Lift Status : Lift has reached the First Floor </p></center>"
  | Floor.Second => "<center><p> Lift Status : Lift has reached the Second Floor </p></center>"

/-- A whole route handler: run the seek loop; when it terminates, report
the final pin state together with the status message sent to the client. -/
def seekHandler (f : Floor) (samples : List ℚ) (prev : Pins) :
    Option (Pins × String) :=
  (seekLoop f samples prev).map (fun p => (p, msgOf f))

/-- The `/Stop` route body (lines 49–55): `digitalWrite(D2, LOW);
digitalWrite(D1, LOW);` with no condition. -/
def stopRoute (prev : Pins) : Pins :=
  digitalWrite (digitalWrite prev Pin.D2 false) Pin.D1 false

end LiftControl

namespace LiftControl

/-- Helper: on a sample outside the band (for the Second floor, a positive
one), the loop body does not execute `break`. -/
theorem handlerBody_not_arrived (f : Floor) (prev : Pins) (d : ℚ)
    (hband : ¬ (lowerOf f ≤ d ∧ d ≤ upperOf f))
    (hpos : f = Floor.Second → 0 < d) :
    (handlerBody f prev d).2 = false := by
  cases f
  case Ground =>
    simp only [lowerOf, upperOf] at hband
    simp only [handlerBody, forwardBody]
    split_ifs <;> rfl
  case First =>
    simp only [lowerOf, upperOf] at hband
    simp only [handlerBody, backwardBody]
    split_ifs <;> rfl
  case Second =>
    have hd := hpos rfl
    simp only [lowerOf, upperOf] at hband
    simp only [handlerBody, leftBody]
    split_ifs with h2 h3
    · rfl
    · rfl
    · exfalso
      push_neg at h2 h3
      exact hband ⟨h2 hd, h3⟩

/-- C9: the `/Stop` route handler drives both motor outputs LOW,
regardless of the prior output state, with no seek logic and no
precondition. -/
theorem stopRoute_unconditionally_idle (prev : Pins) :
    stopRoute prev = Pins.stopped := by
  cases prev
  rfl

/-- C1: for every target floor and every sample strictly inside that
floor's tolerance band (Ground (98.5, 99.5), First (71, 71.5), Second
(38, 39)), the iteration writes both motor direction outputs LOW (the stop
command), executes `break` (Arrived), and the seek loop terminates on that
sample. -/
theorem inBand_stops_and_arrives (f : Floor) (prev : Pins) (d : ℚ)
    (rest : List ℚ) (h1 : lowerOf f < d) (h2 : d < upperOf f) :
    handlerBody f prev d = (Pins.stopped, true) ∧
    seekLoop f (d :: rest) prev = some Pins.stopped := by
  have hb : handlerBody f prev d = (Pins.stopped, true) := by
    cases f <;>
      simp only [lowerOf, upperOf] at h1 h2 <;>
      simp only [handlerBody, forwardBody, backwardBody, leftBody] <;>
      rw [if_pos ⟨h1.le, h2.le⟩] <;>
      rfl
  refine ⟨hb, ?_⟩
  simp only [seekLoop, hb]
  rfl

/-- Witness for C1 at the Ground floor with sample 99 cm. -/
theorem inBand_stops_and_arrives_witness :
    handlerBody Floor.Ground Pins.stopped 99 = (Pins.stopped, true) ∧
    seekLoop Floor.Ground [99] Pins.stopped = some Pins.stopped :=
  inBand_stops_and_arrives Floor.Ground Pins.stopped 99 []
    (by norm_num [lowerOf]) (by norm_num [upperOf])

/-- C2 as stated is false: the Second-floor handler (`Left`) terminates on
a non-positive sample, because its final `else` branch ends in `break`
(lines 158–163). At target Second and sample 0 the iteration arrives. -/
theorem nonpositive_claim_counterexample :
    ¬ (∀ (f : Floor) (prev : Pins) (d : ℚ), d ≤ 0 →
        (handlerBody f prev d).1 = Pins.stopped ∧
        (handlerBody f prev d).2 = false) := by
  intro h
  have h2 := (h Floor.Second Pins.stopped 0 le_rfl).2
  exact absurd h2 (by decide)

/-- C2 amended: on a non-positive sample every handler writes the stop
command; the Ground- and First-floor handlers keep looping, but the
Second-floor handler executes `break` and terminates. -/
theorem nonpositive_sample_behavior (f : Floor) (prev : Pins) (d : ℚ)
    (h : d ≤ 0) :
    (handlerBody f prev d).1 = Pins.stopped ∧
    ((f = Floor.Ground ∨ f = Floor.First) →
      (handlerBody f prev d).2 = false) ∧
    (f = Floor.Second → (handlerBody f prev d).2 = true) := by
  cases f
  case Ground =>
    simp only [handlerBody, forwardBody]
    have c1 : ¬ ((98.5 : ℚ) ≤ d ∧ d ≤ 99.5) := by
      rintro ⟨a, -⟩
      linarith
    have c2 : ¬ (d < 98.5 ∧ (0 : ℚ) < d) := by
      rintro ⟨-, b⟩
      linarith
    rw [if_neg c1, if_neg c2]
    exact ⟨rfl, fun _ => rfl, fun hf => absurd hf (by decide)⟩
  case First =>
    simp only [handlerBody, backwardBody]
    have c1 : ¬ ((71 : ℚ) ≤ d ∧ d ≤ 71.5) := by
      rintro ⟨a, -⟩
      linarith
    have c2 : ¬ (d < 71 ∧ (0 : ℚ) < d) := by
      rintro ⟨-, b⟩
      linarith
    have c3 : ¬ ((71.5 : ℚ) < d) := by
      intro a
      linarith
    rw [if_neg c1, if_neg c2, if_neg c3]
    exact ⟨rfl, fun _ => rfl, fun hf => absurd hf (by decide)⟩
  case Second =>
    simp only [handlerBody, leftBody]
    have c1 : ¬ ((38 : ℚ) ≤ d ∧ d ≤ 39) := by
      rintro ⟨a, -⟩
      linarith
    have c2 : ¬ ((0 : ℚ) < d ∧ d < 38) := by
      rintro ⟨a, -⟩
      linarith
    have c3 : ¬ ((39 : ℚ) < d) := by
      intro a
      linarith
    rw [if_neg c1, if_neg c2, if_neg c3]
    exact ⟨rfl, fun hf => absurd hf (by decide), fun _ => rfl⟩

/-- Witness for the amended C2 at target Second with sample 0. -/
theorem nonpositive_sample_behavior_witness :
    (handlerBody Floor.Second Pins.stopped 0).1 = Pins.stopped ∧
    ((Floor.Second = Floor.Ground ∨ Floor.Second = Floor.First) →
      (handlerBody Floor.Second Pins.stopped 0).2 = false) ∧
    (Floor.Second = Floor.Second →
      (handlerBody Floor.Second Pins.stopped 0).2 = true) :=
  nonpositive_sample_behavior Floor.Second Pins.stopped 0 le_rfl

/-- C3 as stated is false: a sequence of samples that never enters the
Second floor's band can still terminate the `Left` loop, via its
`break`-ing final `else` branch — e.g. the single sample 0. -/
theorem never_inBand_nontermination_counterexample :
    ¬ (∀ (f : Floor) (samples : List ℚ) (prev : Pins),
        (∀ d ∈ samples, ¬ (lowerOf f ≤ d ∧ d ≤ upperOf f)) →
        seekLoop f samples prev = none) := by
  intro h
  have h0 : ∀ d ∈ [(0 : ℚ)],
      ¬ (lowerOf Floor.Second ≤ d ∧ d ≤ upperOf Floor.Second) := by
    intro d hd
    rw [List.mem_singleton] at hd
    subst hd
    decide
  have hrun := h Floor.Second [0] Pins.stopped h0
  rw [show seekLoop Floor.Second [0] Pins.stopped = some Pins.stopped from
    by decide] at hrun
  exact Option.noConfusion hrun

/-- C3 amended: with no timeout and no iteration cap, the seek loop is
still running after any number of out-of-band samples — provided, for the
Second floor, that the samples are also positive (a non-positive sample
makes `Left` exit through its `break`-ing `else` branch). -/
theorem never_inBand_still_looping (f : Floor) (samples : List ℚ)
    (prev : Pins)
    (hband : ∀ d ∈ samples, ¬ (lowerOf f ≤ d ∧ d ≤ upperOf f))
    (hpos : f = Floor.Second → ∀ d ∈ samples, 0 < d) :
    seekLoop f samples prev = none := by
  induction samples generalizing prev with
  | nil => rfl
  | cons d rest ih =>
    have hstep := handlerBody_not_arrived f prev d
      (hband d (List.mem_cons_self d rest))
      (fun hf => hpos hf d (List.mem_cons_self d rest))
    simp only [seekLoop, hstep, Bool.false_eq_true, if_false]
    exact ih _ (fun e he => hband e (List.mem_cons_of_mem d he))
      (fun hf e he => hpos hf e (List.mem_cons_of_mem d he))

/-- Witness for the amended C3: the Ground-floor loop is still running
after the out-of-band sample 0. -/
theorem never_inBand_still_looping_witness :
    seekLoop Floor.Ground [0] Pins.stopped = none :=
  never_inBand_still_looping Floor.Ground [0] Pins.stopped
    (by
      intro d hd
      rw [List.mem_singleton] at hd
      subst hd
      norm_num [lowerOf, upperOf])
    (fun hf => absurd hf (by decide))

/-- C4 as stated is false at a sample exactly at the upper bound: the
handlers test `distance1 > bound` strictly, so at the First floor the
sample 71.5 falls in the closed band and the iteration emits the stop
command, not the decreasing-distance command (D1 HIGH, D2 LOW). -/
theorem at_upper_bound_counterexample :
    ¬ (∀ (f : Floor) (prev : Pins) (d : ℚ), enforcesUpper f = true →
        upperOf f ≤ d → (handlerBody f prev d).1 = Pins.mk true false) := by
  intro h
  have hinst := h Floor.First Pins.stopped 71.5 rfl le_rfl
  have heval : handlerBody Floor.First Pins.stopped 71.5 =
      (Pins.stopped, true) := by
    norm_num [handlerBody, backwardBody, digitalWrite, Pins.stopped]
  rw [heval] at hinst
  exact absurd hinst (by decide)

/-- C4 amended: for a target that enforces an upper bound (First, Second),
every sample strictly above the bound makes the iteration emit the
decreasing-distance command (D1 HIGH, D2 LOW); the Ground floor enforces
no upper bound and its handler never emits that command. -/
theorem strictly_above_upper_moves_down (f : Floor) (prev q : Pins)
    (d e : ℚ) (henf : enforcesUpper f = true) (h : upperOf f < d) :
    (handlerBody f prev d).1 = Pins.mk true false ∧
    (handlerBody Floor.Ground q e).1 ≠ Pins.mk true false := by
  constructor
  · cases f
    case Ground => exact absurd henf (by decide)
    case First =>
      simp only [upperOf] at h
      simp only [handlerBody, backwardBody]
      have c1 : ¬ ((71 : ℚ) ≤ d ∧ d ≤ 71.5) := by
        rintro ⟨-, hle⟩
        linarith
      have c2 : ¬ (d < 71 ∧ (0 : ℚ) < d) := by
        rintro ⟨hlt, -⟩
        linarith
      rw [if_neg c1, if_neg c2, if_pos h]
      rfl
    case Second =>
      simp only [upperOf] at h
      simp only [handlerBody, leftBody]
      have c1 : ¬ ((38 : ℚ) ≤ d ∧ d ≤ 39) := by
        rintro ⟨-, hle⟩
        linarith
      have c2 : ¬ ((0 : ℚ) < d ∧ d < 38) := by
        rintro ⟨-, hlt⟩
        linarith
      rw [if_neg c1, if_neg c2, if_pos h]
      rfl
  · simp only [handlerBody, forwardBody]
    split_ifs <;> simp [digitalWrite, Pins.stopped]

/-- Witness for the amended C4 at the First floor with sample 72 and the
Ground floor with sample 50. -/
theorem strictly_above_upper_moves_down_witness :
    (handlerBody Floor.First Pins.stopped 72).1 = Pins.mk true false ∧
    (handlerBody Floor.Ground Pins.stopped 50).1 ≠ Pins.mk true false :=
  strictly_above_upper_moves_down Floor.First Pins.stopped Pins.stopped
    72 50 rfl (by norm_num [upperOf])

/-- C5: the Ground-floor handler (`Forward`) brakes, never reverses, once
the lift is below its band: on every sample past the band's far end
(measured distance above 99.5 cm, i.e. the car below the Ground position)
the iteration writes both outputs LOW and keeps looping, and on no sample
whatsoever does `Forward` drive D1 HIGH (the reverse command). -/
theorem ground_brakes_never_reverses (prev q : Pins) (d e : ℚ)
    (h : upperOf Floor.Ground < d) :
    handlerBody Floor.Ground prev d = (Pins.stopped, false) ∧
    (handlerBody Floor.Ground q e).1.d1 = false := by
  constructor
  · simp only [upperOf] at h
    simp only [handlerBody, forwardBody]
    have c1 : ¬ ((98.5 : ℚ) ≤ d ∧ d ≤ 99.5) := by
      rintro ⟨-, hle⟩
      linarith
    have c2 : ¬ (d < 98.5 ∧ (0 : ℚ) < d) := by
      rintro ⟨hlt, -⟩
      linarith
    rw [if_neg c1, if_neg c2]
    rfl
  · simp only [handlerBody, forwardBody]
    split_ifs <;> rfl

/-- Witness for C5 with samples 120 and 50. -/
theorem ground_brakes_never_reverses_witness :
    handlerBody Floor.Ground Pins.stopped 120 = (Pins.stopped, false) ∧
    (handlerBody Floor.Ground Pins.stopped 50).1.d1 = false :=
  ground_brakes_never_reverses Pins.stopped Pins.stopped 120 50
    (by norm_num [upperOf])

/-- C6: for every target floor, a positive sample strictly below the
band's lower end makes the iteration emit the increasing-distance command
(D2 HIGH, D1 LOW). -/
theorem below_band_positive_raises (f : Floor) (prev : Pins) (d : ℚ)
    (h0 : 0 < d) (h : d < lowerOf f) :
    (handlerBody f prev d).1 = Pins.mk false true := by
  cases f
  case Ground =>
    simp only [lowerOf] at h
    simp only [handlerBody, forwardBody]
    have c1 : ¬ ((98.5 : ℚ) ≤ d ∧ d ≤ 99.5) := by
      rintro ⟨hge, -⟩
      linarith
    rw [if_neg c1, if_pos ⟨h, h0⟩]
    rfl
  case First =>
    simp only [lowerOf] at h
    simp only [handlerBody, backwardBody]
    have c1 : ¬ ((71 : ℚ) ≤ d ∧ d ≤ 71.5) := by
      rintro ⟨hge, -⟩
      linarith
    rw [if_neg c1, if_pos ⟨h, h0⟩]
    rfl
  case Second =>
    simp only [lowerOf] at h
    simp only [handlerBody, leftBody]
    have c1 : ¬ ((38 : ℚ) ≤ d ∧ d ≤ 39) := by
      rintro ⟨hge, -⟩
      linarith
    rw [if_neg c1, if_pos ⟨h0, h⟩]
    rfl

/-- Witness for C6 at the Ground floor with sample 50. -/
theorem below_band_positive_raises_witness :
    (handlerBody Floor.Ground Pins.stopped 50).1 = Pins.mk false true :=
  below_band_positive_raises Floor.Ground Pins.stopped 50
    (by norm_num) (by norm_num [lowerOf])

/-- C7: mutual exclusion of the motor outputs is an invariant: after any
iteration of any seek handler, and after the `/Stop` route, at most one of
the two direction outputs is HIGH — for every prior output state, hence
for every reachable one. -/
theorem motor_outputs_mutually_exclusive (f : Floor) (prev : Pins)
    (d : ℚ) :
    mutuallyExclusive (handlerBody f prev d).1 ∧
    mutuallyExclusive (stopRoute prev) := by
  constructor
  · cases f <;>
      simp only [handlerBody, forwardBody, backwardBody, leftBody] <;>
      split_ifs <;>
      simp [mutuallyExclusive, digitalWrite]
  · simp [mutuallyExclusive, stopRoute, digitalWrite]

/-- C8 as stated is false: `distance()` does not return
`duration * SOUND_VELOCITY / 2` — it subtracts a further fixed 2.5 cm
(line 72: `distanceCm = duration * SOUND_VELOCITY/2 - 2.5`). At pulse
duration 1000 the claimed formula gives 17 but the code returns 14.5. -/
theorem distance_formula_counterexample :
    distance 1000 ≠ 1000 * SOUND_VELOCITY / 2 := by
  norm_num [distance, SOUND_VELOCITY]

/-- C8 amended: `distance()` converts the echo pulse duration to
centimeters as `duration * SOUND_VELOCITY / 2 - 2.5` with
`SOUND_VELOCITY = 0.034` (a fixed 2.5 cm calibration offset beyond the
speed-of-sound conversion); a missing echo (pulse duration 0) yields
-2.5, a negative value, and more generally the return value is
non-positive exactly for durations up to 2500/17 microseconds. -/
theorem distance_conversion_and_zero_echo :
    (∀ duration : ℚ,
      distance duration = duration * SOUND_VELOCITY / 2 - 2.5) ∧
    distance 0 = -2.5 ∧ distance 0 < 0 ∧
    (∀ duration : ℚ, distance duration ≤ 0 ↔ duration ≤ 2500 / 17) := by
  refine ⟨fun duration => rfl, by norm_num [distance, SOUND_VELOCITY],
    by norm_num [distance, SOUND_VELOCITY], fun duration => ?_⟩
  rw [distance]
  constructor <;> intro h <;> norm_num [SOUND_VELOCITY] at h ⊢ <;> linarith

/-- C10: the status message a seek handler reports on return is the fixed
string of its target floor alone — any two terminating runs of the same
handler, from any prior pin states, report the same message; in
particular the Second-floor handler reports that the lift has reached the
Second Floor even when its loop exits through the non-positive-sample
`else` branch (sample 0) rather than through an in-band sample. -/
theorem message_depends_only_on_target (f : Floor) (s1 s2 : List ℚ)
    (p1 p2 : Pins) (r1 r2 : Pins × String)
    (h1 : seekHandler f s1 p1 = some r1)
    (h2 : seekHandler f s2 p2 = some r2) :
    r1.2 = r2.2 ∧ r1.2 = msgOf f ∧
    seekHandler Floor.Second [0] Pins.stopped =
      some (Pins.stopped, msgOf Floor.Second) := by
  rw [seekHandler] at h1 h2
  obtain ⟨a, -, ha⟩ := Option.map_eq_some'.mp h1
  obtain ⟨b, -, hb⟩ := Option.map_eq_some'.mp h2
  refine ⟨?_, ?_, ?_⟩
  · rw [← ha, ← hb]
  · rw [← ha]
  · rfl

/-- Witness for C10: the Second-floor handler terminating on the in-band
sample 38 and terminating on the non-positive sample 0 report the same
message. -/
theorem message_depends_only_on_target_witness :
    ((Pins.stopped, msgOf Floor.Second) : Pins × String).2 =
      ((Pins.stopped, msgOf Floor.Second) : Pins × String).2 ∧
    ((Pins.stopped, msgOf Floor.Second) : Pins × String).2 =
      msgOf Floor.Second ∧
    seekHandler Floor.Second [0] Pins.stopped =
      some (Pins.stopped, msgOf Floor.Second) :=
  message_depends_only_on_target Floor.Second [38] [0]
    Pins.stopped Pins.stopped
    (Pins.stopped, msgOf Floor.Second) (Pins.stopped, msgOf Floor.Second)
    rfl rfl

end LiftControl
